import Mathlib

set_option maxRecDepth 8192

/-!
Verification of the vidcoder4 video-shorts pipeline (src/vidcoder4.py).

Shallow embedding conventions:
* Python strings are modelled as `List Char` (`Str`); digits and whitespace
  are modelled as their ASCII ranges.
* Python exceptions (`ValueError`, `RuntimeError`) become the `VErr` sum,
  carrying the exception message; functions that can raise return `Except`.
* The numeric progress percentages (Python floats incremented by exact
  dyadic/decimal steps) are modelled exactly in `ℚ`.
* External effects (the ffmpeg presence probe, probed stream dimensions,
  child-process exit codes and lifetimes, filesystem state at cleanup) are
  inputs in an `Env` record; spawned child-process command lines, emitted
  progress values, and emitted status messages are collected in ordered logs.
-/

namespace Vidcoder

/-- Python strings, modelled as lists of characters. -/
abbrev Str := List Char

/-- Coerce a Lean string literal into the model's string type. -/
def s2l (s : String) : Str := s.data

/-- ASCII decimal digit test (models `\d` of the source's regexes and the
digits accepted by Python's `int`, restricted to ASCII). -/
def isDig (c : Char) : Bool := 48 ≤ c.toNat && c.toNat ≤ 57

/-- Numeric value of an ASCII digit character. -/
def digVal (c : Char) : ℕ := c.toNat - 48

/-- ASCII whitespace test (models the whitespace stripped by Python's
`str.strip` / `int`, restricted to ASCII). -/
def isSpace (c : Char) : Bool := c.toNat = 32 || (9 ≤ c.toNat && c.toNat ≤ 13)

/-- Strip whitespace from both ends, as Python's `str.strip()`. -/
def strip (s : Str) : Str :=
  ((s.dropWhile isSpace).reverse.dropWhile isSpace).reverse

/-- Helper for `splitOn`: accumulates the current field (reversed). -/
def splitOnAux (sep : Char) : Str → Str → List Str
  | [], acc => [acc.reverse]
  | c :: rest, acc =>
    if c = sep then acc.reverse :: splitOnAux sep rest []
    else splitOnAux sep rest (c :: acc)

/-- Python's `str.split(sep)` for a one-character separator. -/
def splitOn (sep : Char) (s : Str) : List Str := splitOnAux sep s []

/-- Digit-sequence part of Python's `int(str)`: a nonempty digit string in
which an underscore may appear between two digits. `pyDigitsAux` consumes the
characters after the first digit. -/
def pyDigitsAux : Str → ℕ → Option ℕ
  | [], acc => some acc
  | c :: rest, acc =>
    if c = '_' then
      match rest with
      | [] => none
      | c2 :: rest2 =>
        if isDig c2 then pyDigitsAux rest2 (acc * 10 + digVal c2) else none
    else if isDig c then pyDigitsAux rest (acc * 10 + digVal c) else none

/-- Digit-sequence part of Python's `int(str)`: must start with a digit. -/
def pyDigits : Str → Option ℕ
  | [] => none
  | c :: rest => if isDig c then pyDigitsAux rest (digVal c) else none

/-- Python's `int(str)`: strips whitespace, accepts one optional sign, then a
digit sequence; returns `none` where Python raises `ValueError`. -/
def pyInt (s : Str) : Option ℤ :=
  match strip s with
  | [] => none
  | c :: rest =>
    if c = '+' then (pyDigits rest).map (fun n => (n : ℤ))
    else if c = '-' then (pyDigits rest).map (fun n => -(n : ℤ))
    else (pyDigits (c :: rest)).map (fun n => (n : ℤ))

/-- Python exceptions raised by the source: `ValueError` and `RuntimeError`,
each carrying its message (`str(e)`). -/
inductive VErr where
  | valueError : Str → VErr
  | runtimeError : Str → VErr
deriving DecidableEq

/-- The message of an exception (Python's `str(e)`). -/
def VErr.msg : VErr → Str
  | .valueError m => m
  | .runtimeError m => m

/-- Message of the field-count branch of `convert_timestamp`. -/
def tsMsgA (t : Str) : Str :=
  s2l "Invalid timestamp format: " ++ t ++ s2l ". Use MM:SS format."

/-- Message of the except-branch of `convert_timestamp` (re-raised for
non-numeric fields and for a seconds field of 60 or more). -/
def tsMsgB (t : Str) : Str :=
  s2l "Invalid timestamp format: " ++ t ++ s2l ". Use MM:SS format with numbers only."

/-- `VideoProcessor.convert_timestamp` (src/vidcoder4.py lines 53-65):
split on a colon; exactly two fields required; both fields go through
Python's `int`; a seconds value of 60 or more raises. The `ValueError`
raised inside the `try` block (non-numeric field, or the seconds bound)
is caught and re-raised with the "numbers only" message. -/
def convert_timestamp (timestamp : Str) : Except VErr ℤ :=
  match splitOn ':' timestamp with
  | [p0, p1] =>
    match pyInt p0, pyInt p1 with
    | some minutes, some seconds =>
      if 60 ≤ seconds then .error (.valueError (tsMsgB timestamp))
      else .ok (minutes * 60 + seconds)
    | _, _ => .error (.valueError (tsMsgB timestamp))
  | _ => .error (.valueError (tsMsgA timestamp))

/-- `TimeSegment` (src/vidcoder4.py lines 37-40): a pair of `MM:SS` texts.
The source's field `end` is called `stop` here (`end` is reserved in Lean). -/
structure TimeSegment where
  start : Str
  stop : Str
deriving DecidableEq

/-- The anchored prefix match of `re.compile(r'(\d{2}:\d{2})-(\d{2}:\d{2})').match(line)`
(src/vidcoder4.py lines 356, 363): the pattern must match at the start of the
line; any trailing characters are ignored. Returns the two captured groups. -/
def matchTs : Str → Option (Str × Str)
  | d1 :: d2 :: c1 :: d3 :: d4 :: h :: e1 :: e2 :: c2 :: e3 :: e4 :: _ =>
    if isDig d1 && isDig d2 && c1 = ':' && isDig d3 && isDig d4 && h = '-' &&
       isDig e1 && isDig e2 && c2 = ':' && isDig e3 && isDig e4 then
      some ([d1, d2, c1, d3, d4], [e1, e2, c2, e3, e4])
    else none
  | _ => none

/-- Message raised by `Application.parse_timestamps` for a non-matching line. -/
def lineMsg (l : Str) : Str :=
  s2l "Invalid timestamp format: " ++ l ++ ['\n'] ++
    s2l "Use MM:SS-MM:SS format (e.g., 00:30-01:00)"

/-- The line loop of `Application.parse_timestamps` (src/vidcoder4.py lines
355-374): strip each line, skip blank lines, require the anchored pattern
match, validate both endpoints through `convert_timestamp` (values discarded),
and collect the segments in input order. -/
def collectSegments : List Str → Except VErr (List TimeSegment)
  | [] => .ok []
  | line :: rest =>
    let l := strip line
    if l = [] then collectSegments rest
    else
      match matchTs l with
      | none => .error (.valueError (lineMsg l))
      | some (st, en) => do
        let _ ← convert_timestamp st
        let _ ← convert_timestamp en
        let segs ← collectSegments rest
        return ⟨st, en⟩ :: segs

/-- `Application.parse_timestamps` (src/vidcoder4.py lines 354-379), applied
to the raw text of the timestamps widget: split into lines, run the line
loop, and fail when no segment was collected. -/
def parse_timestamps (text : Str) : Except VErr (List TimeSegment) := do
  let ts ← collectSegments (splitOn '\n' text)
  if ts = [] then .error (.valueError (s2l "No timestamps provided"))
  else .ok ts

/-- The geometry computation of `VideoProcessor.process_videos`
(src/vidcoder4.py lines 92-95): `target_height = min(height_top, height_bottom)`,
`segment_height = target_height // 2`, `segment_width = int(segment_height * 9 / 8)`.
For nonnegative heights Python's `int(x * 9 / 8)` (true division then
truncation; the float quotient is an exact dyadic rational here) equals
truncating natural division, written `* 9 / 8` on `ℕ`.
Returns `(segment_width, segment_height)`. -/
def planGeometry (width_top height_top width_bottom height_bottom : ℕ) : ℕ × ℕ :=
  let target_height := min height_top height_bottom
  let segment_height := target_height / 2
  let segment_width := segment_height * 9 / 8
  (segment_width, segment_height)

/-- Python's `str(n)` for a natural number. -/
def natToStr (n : ℕ) : Str := Nat.toDigits 10 n

/-- Python's `str(i)` for an integer. -/
def intToStr (i : ℤ) : Str :=
  if i < 0 then '-' :: natToStr i.natAbs else natToStr i.natAbs

/-- `os.path.join` for one component (POSIX shape; the source immediately
rewrites backslashes to slashes, so the separator choice is immaterial). -/
def pathJoin (d f : Str) : Str :=
  if f.head? = some '/' then f
  else if d = [] then f
  else if d.getLast? = some '/' then d ++ f
  else d ++ '/' :: f

/-- `str.replace('\\', '/')` — a single-character replacement. -/
def slashes (s : Str) : Str := s.map (fun c => if c = '\\' then '/' else c)

/-- `str.replace(':', '.')` used in segment output file names. -/
def colonsToDots (s : Str) : Str := s.map (fun c => if c = ':' then '.' else c)

/-- Python's `str.endswith(suffix)`. -/
def endsWith (s suf : Str) : Bool := suf.isSuffixOf s

/-- ASCII `str.lower()`. -/
def lowerChar (c : Char) : Char :=
  if 65 ≤ c.toNat && c.toNat ≤ 90 then Char.ofNat (c.toNat + 32) else c

/-- Python's `str.lower()` (ASCII model). -/
def lowerStr (s : Str) : Str := s.map lowerChar

/-- Python truthiness of an optional string field: `None` and the empty
string are falsy (the source's `all([...])` test). -/
def truthy : Option Str → Bool
  | none => false
  | some s => s ≠ []

/-- The recognized audio extensions of src/vidcoder4.py line 79. -/
def audioExts : List Str := [s2l ".mp3", s2l ".wav", s2l ".m4a", s2l ".aac"]

/-- The audio-override validation of src/vidcoder4.py line 79:
`self.audio_file.lower().endswith(('.mp3', '.wav', '.m4a', '.aac'))`,
vacuously true when no audio file is set. -/
def audioOk : Option Str → Bool
  | none => true
  | some a => audioExts.any (fun e => endsWith (lowerStr a) e)

/-- The `-filter_complex` string of the combine invocation
(src/vidcoder4.py lines 120-125), with the planned geometry interpolated. -/
def filterStr (sw sh : ℕ) : Str :=
  s2l "[0:v]crop=" ++ natToStr sw ++ [':'] ++ natToStr sh ++
    s2l ":(in_w-" ++ natToStr sw ++ s2l ")/2:(in_h-" ++ natToStr sh ++ s2l ")/2[top];" ++
  s2l "[1:v]crop=" ++ natToStr sw ++ [':'] ++ natToStr sh ++
    s2l ":(in_w-" ++ natToStr sw ++ s2l ")/2:(in_h-" ++ natToStr sh ++ s2l ")/2[bottom];" ++
  s2l "[top][bottom]vstack[v]"

/-- The combine command line (src/vidcoder4.py lines 108-143). -/
def combineCommand (top bottom : Str) (audio : Option Str) (sw sh : ℕ)
    (encoder preset temp : Str) : List Str :=
  [s2l "ffmpeg", s2l "-hwaccel", s2l "auto",
   s2l "-i", slashes top, s2l "-i", slashes bottom] ++
  (match audio with
   | some a => [s2l "-i", slashes a]
   | none => []) ++
  [s2l "-filter_complex", filterStr sw sh] ++
  [s2l "-map", s2l "[v]"] ++
  (match audio with
   | some _ => [s2l "-map", s2l "2:a"]
   | none => [s2l "-map", s2l "0:a"]) ++
  [s2l "-c:v", encoder, s2l "-preset", preset, s2l "-c:a", s2l "aac",
   s2l "-y", temp]

/-- The segment-extraction command line (src/vidcoder4.py lines 182-197). -/
def segmentCommand (start_seconds duration : ℤ) (encoder preset temp outfile : Str) :
    List Str :=
  [s2l "ffmpeg", s2l "-hwaccel", s2l "auto",
   s2l "-ss", intToStr start_seconds, s2l "-i", temp,
   s2l "-t", intToStr duration,
   s2l "-c:v", encoder, s2l "-preset", preset, s2l "-c:a", s2l "aac",
   s2l "-avoid_negative_ts", s2l "1", s2l "-async", s2l "1",
   s2l "-vsync", s2l "cfr", s2l "-max_muxing_queue_size", s2l "1024",
   s2l "-y", outfile]

/-- The progress values emitted by the combine-monitoring loop
(src/vidcoder4.py lines 149-154) when it runs `k` iterations: `progress`
starts at 0, each iteration adds 0.1 and emits the new value. -/
def combineRamp (k : ℕ) : List ℚ :=
  (List.range k).map (fun (j : ℕ) => ((j : ℚ) + 1) * (1 / 10))

/-- `progress_start` of a segment's simulated ramp (src/vidcoder4.py line
204): `30 + ((index - 1) / total * 70)`. -/
def spanStart (index total : ℕ) : ℚ := 30 + ((index : ℚ) - 1) / (total : ℚ) * 70

/-- `progress_end` of a segment's simulated ramp (src/vidcoder4.py line
205): `30 + (index / total * 70)`. -/
def spanEnd (index total : ℕ) : ℚ := 30 + (index : ℚ) / (total : ℚ) * 70

/-- The simulated progress ramp of one segment (src/vidcoder4.py lines
203-212): ten evenly stepped values from the segment's span start, then the
span end. `index` is 1-based, `total` is the segment count. -/
def segmentRamp (index total : ℕ) : List ℚ :=
  ((List.range 10).map (fun (i : ℕ) => spanStart index total +
    (i : ℚ) * ((spanEnd index total - spanStart index total) / 10))) ++
    [spanEnd index total]

/-- Ordered event logs of one run: emitted progress values, emitted status
messages, and the command lines of spawned child processes. -/
structure Log where
  progress : List ℚ
  status : List Str
  spawned : List (List Str)
deriving DecidableEq

/-- The empty log. -/
def Log.nil : Log := ⟨[], [], []⟩

/-- Concatenation of logs (events in order). -/
def Log.append (a b : Log) : Log :=
  ⟨a.progress ++ b.progress, a.status ++ b.status, a.spawned ++ b.spawned⟩

/-- The external environment of one run: everything the source observes
outside its own state. `segmentExit`/`segmentStderr` give the exit code and
error stream of the extraction process spawned for the (1-based) i-th
segment; `combineAliveTicks` is the number of monitoring-loop iterations for
which `process.poll()` still returns `None`. -/
structure Env where
  ffmpegPresent : Bool
  hasNvidia : Bool
  probeTop : ℕ × ℕ
  probeBottom : ℕ × ℕ
  combineAliveTicks : ℕ
  combineExit : ℤ
  combineStderr : Str
  segmentExit : ℕ → ℤ
  segmentStderr : ℕ → Str
  tempExistsAtCleanup : Bool
  removeFails : Bool

/-- The video encoder selection (src/vidcoder4.py line 104). -/
def encoderOf (env : Env) : Str :=
  if env.hasNvidia then s2l "h264_nvenc" else s2l "libx264"

/-- The encoder preset selection (src/vidcoder4.py line 105). -/
def presetOf (env : Env) : Str :=
  if env.hasNvidia then s2l "p1" else s2l "ultrafast"

/-- The `VideoProcessor` fields set by the caller before a run. -/
structure Proc where
  top_video : Option Str
  bottom_video : Option Str
  audio_file : Option Str
  output_dir : Option Str

/-- Wrapping of any exception escaping `process_segment`
(src/vidcoder4.py lines 214-215). -/
def wrapSeg (seg : TimeSegment) (e : VErr) : VErr :=
  .runtimeError (s2l "Error processing segment " ++ seg.start ++ ['-'] ++ seg.stop ++
    s2l ": " ++ e.msg)

/-- Wrapping of any exception escaping the orchestrator's `try` block
(src/vidcoder4.py lines 222-223). -/
def wrapOuter (e : VErr) : VErr :=
  .runtimeError (s2l "Video processing failed: " ++ e.msg)

/-- The status message `f"Processing segment {index}/{total}..."`. -/
def segStatus (index total : ℕ) : Str :=
  s2l "Processing segment " ++ natToStr index ++ ['/'] ++ natToStr total ++ s2l "..."

/-- The output file name `f'segment_{start}-{end}.mp4'` with colons dotted
(src/vidcoder4.py lines 176-179). -/
def segName (seg : TimeSegment) : Str :=
  s2l "segment_" ++ colonsToDots seg.start ++ ['-'] ++ colonsToDots seg.stop ++ s2l ".mp4"

/-- `process_segment` (src/vidcoder4.py lines 165-215): emit the status
message, convert both endpoints, require a positive duration, spawn the
extraction process, fail on a non-zero exit, then emit the simulated ramp.
Every exception is wrapped with the segment's range by `wrapSeg`.
`exitf i`/`errf i` are the exit code and error stream of the process spawned
for the (1-based) i-th segment. -/
def process_segment (exitf : ℕ → ℤ) (errf : ℕ → Str) (encoder preset temp outdir : Str)
    (seg : TimeSegment) (index total : ℕ) : Log × Except VErr Unit :=
  let st := [segStatus index total]
  match convert_timestamp seg.start with
  | .error e => (⟨[], st, []⟩, .error (wrapSeg seg e))
  | .ok start_seconds =>
    match convert_timestamp seg.stop with
    | .error e => (⟨[], st, []⟩, .error (wrapSeg seg e))
    | .ok end_seconds =>
      let duration := end_seconds - start_seconds
      if duration ≤ 0 then
        (⟨[], st, []⟩, .error (wrapSeg seg (.valueError
          (s2l "Invalid segment duration: " ++ seg.start ++ ['-'] ++ seg.stop))))
      else
        let output_file := slashes (pathJoin outdir (segName seg))
        let cmd := segmentCommand start_seconds duration encoder preset temp output_file
        if exitf index ≠ 0 then
          (⟨[], st, [cmd]⟩, .error (wrapSeg seg (.runtimeError
            (s2l "FFmpeg Error during segmentation:" ++ ['\n'] ++ errf index))))
        else
          (⟨segmentRamp index total, st, [cmd]⟩, .ok ())

/-- The sequential segment loop (src/vidcoder4.py lines 217-220): process
segments in order with 1-based indices; stop at the first failure. -/
def runSegments (exitf : ℕ → ℤ) (errf : ℕ → Str) (encoder preset temp outdir : Str) :
    List TimeSegment → ℕ → ℕ → Log × Except VErr Unit
  | [], _, _ => (Log.nil, .ok ())
  | seg :: rest, index, total =>
    let (l, r) := process_segment exitf errf encoder preset temp outdir seg index total
    match r with
    | .error e => (l, .error e)
    | .ok _ =>
      let (l2, r2) := runSegments exitf errf encoder preset temp outdir rest (index + 1) total
      (l.append l2, r2)

/-- Outcome record of one run of `process_videos`: the event logs, whether
the cleanup step called `os.remove` on the temporary artifact, whether that
call succeeded, and the run's result (`ok` = the call returned normally). -/
structure RunOut where
  log : Log
  cleanupAttempted : Bool
  cleanupRemoved : Bool
  result : Except VErr Unit

/-- `VideoProcessor.process_videos` (src/vidcoder4.py lines 67-230).

Stages, in source order: the ffmpeg presence check (absent → plain `return`,
no exception); field/extension validation (raising `ValueError` before any
child process); probing (dimensions supplied by `Env`; probe success is
assumed); geometry planning; the combine invocation with its simulated
progress loop (the loop runs `min combineAliveTicks 980` iterations, since
the loop also stops once progress reaches 98); the checkpoint value 30; the
sequential segment loop; the `except` wrapper adding "Video processing
failed: "; and the `finally` cleanup, which attempts to remove the temporary
file when it exists and swallows a failure of that removal.

The ffmpeg version probe of `check_ffmpeg` is not recorded in `spawned`,
which collects only the transcoding invocations. -/
def process_videos (env : Env) (p : Proc) (segments : List TimeSegment) : RunOut :=
  if !env.ffmpegPresent then
    ⟨Log.nil, false, false, .ok ()⟩
  else if !(truthy p.top_video && truthy p.bottom_video && truthy p.output_dir) then
    ⟨Log.nil, false, false,
      .error (.valueError (s2l "Missing input files or output directory"))⟩
  else
    let top := p.top_video.getD []
    let bottom := p.bottom_video.getD []
    let outdir := p.output_dir.getD []
    if !(endsWith top (s2l ".mp4") && endsWith bottom (s2l ".mp4")) then
      ⟨Log.nil, false, false, .error (.valueError (s2l "Input files must be mp4"))⟩
    else if !audioOk p.audio_file then
      ⟨Log.nil, false, false,
        .error (.valueError (s2l "Audio file must be mp3, wav, m4a, or aac format"))⟩
    else
      let geom := planGeometry env.probeTop.1 env.probeTop.2
        env.probeBottom.1 env.probeBottom.2
      let temp := slashes (pathJoin outdir (s2l "temp_combined.mp4"))
      let cmd := combineCommand top bottom p.audio_file geom.1 geom.2
        (encoderOf env) (presetOf env) temp
      let ramp := combineRamp (min env.combineAliveTicks 980)
      let statuses := [s2l "Analyzing videos...", s2l "Combining videos..."]
      let cleanA := env.tempExistsAtCleanup
      let cleanR := env.tempExistsAtCleanup && !env.removeFails
      if env.combineExit ≠ 0 then
        ⟨⟨ramp, statuses, [cmd]⟩, cleanA, cleanR,
          .error (wrapOuter (.runtimeError
            (s2l "FFmpeg Error:" ++ ['\n'] ++ env.combineStderr)))⟩
      else
        let sout := runSegments env.segmentExit env.segmentStderr
          (encoderOf env) (presetOf env) temp outdir segments 1 segments.length
        ⟨⟨ramp ++ 30 :: sout.1.progress, statuses ++ sout.1.status,
          cmd :: sout.1.spawned⟩, cleanA, cleanR,
          match sout.2 with
          | .ok _ => .ok ()
          | .error e => .error (wrapOuter e)⟩

/-- Modelled from the spec: the `MM:SS` formatter used by the round-trip
property of §8 ("formatting the integer back to `MM:SS`"); the source
repository has no formatter, so it is taken from the spec's words:
two-digit minutes, a colon, two-digit seconds. -/
def formatMMSS (n : ℕ) : Str :=
  [Nat.digitChar (n / 60 / 10), Nat.digitChar (n / 60 % 10), ':',
   Nat.digitChar (n % 60 / 10), Nat.digitChar (n % 60 % 10)]

/-- Valid `MM:SS` text in the sense of the spec (§8): exactly the shape
`\d\d:\d\d` with a seconds field below 60. -/
def validMMSS (t : Str) : Bool :=
  match t with
  | [d1, d2, c, d3, d4] =>
    isDig d1 && isDig d2 && c = ':' && isDig d3 && isDig d4 &&
      10 * digVal d3 + digVal d4 < 60
  | _ => false

/-- A segment whose two endpoints convert and whose duration is positive. -/
def goodSegB (seg : TimeSegment) : Bool :=
  match convert_timestamp seg.start, convert_timestamp seg.stop with
  | .ok a, .ok b => a < b
  | _, _ => false

/-- A segment whose two endpoints convert but whose duration is not
positive (the `InvalidSegmentDuration` condition). -/
def badSegB (seg : TimeSegment) : Bool :=
  match convert_timestamp seg.start, convert_timestamp seg.stop with
  | .ok a, .ok b => b ≤ a
  | _, _ => false

/-- A line the parser's loop passes without raising: blank after stripping,
or prefix-matching the pattern with both endpoints converting. -/
def lineOkP (x : Str) : Prop :=
  strip x = [] ∨
    ∃ st en a b, matchTs (strip x) = some (st, en) ∧
      convert_timestamp st = .ok a ∧ convert_timestamp en = .ok b

/-- The claim's progress-monotonicity property: each emitted value is at
least the previous one. -/
def nonDecreasing (l : List ℚ) : Prop := l.Chain' (· ≤ ·)

/-! ### Character and string helper lemmas -/

theorem isDig_iff {c : Char} : isDig c = true ↔ 48 ≤ c.toNat ∧ c.toNat ≤ 57 := by
  simp [isDig]

theorem digVal_le_of_isDig {c : Char} (h : isDig c = true) : digVal c ≤ 9 := by
  rw [isDig_iff] at h; unfold digVal; omega

theorem isSpace_false_of_isDig {c : Char} (h : isDig c = true) : isSpace c = false := by
  rw [isDig_iff] at h
  simp only [isSpace, Bool.or_eq_false_iff, Bool.and_eq_false_iff,
    decide_eq_false_iff_not]
  omega

theorem ne_of_isDig_of_not {c x : Char} (h : isDig c = true) (hx : isDig x = false) :
    c ≠ x := by
  intro he; subst he; simp [h] at hx

theorem dropWhile_eq_self_of_not {l : Str} (h : ∀ c ∈ l, isSpace c = false) :
    l.dropWhile isSpace = l := by
  cases l with
  | nil => rfl
  | cons c cs => rw [List.dropWhile_cons, h c (by simp)]; simp

theorem strip_eq_self {l : Str} (h : ∀ c ∈ l, isSpace c = false) : strip l = l := by
  unfold strip
  rw [dropWhile_eq_self_of_not h,
    dropWhile_eq_self_of_not (by intro c hc; exact h c (by simpa using hc)),
    List.reverse_reverse]

theorem pyInt_two_digits {d1 d2 : Char} (h1 : isDig d1 = true) (h2 : isDig d2 = true) :
    pyInt [d1, d2] = some ((digVal d1 * 10 + digVal d2 : ℕ) : ℤ) := by
  have hs : strip [d1, d2] = [d1, d2] := by
    apply strip_eq_self
    intro c hc
    rcases (by simpa using hc : c = d1 ∨ c = d2) with h | h <;> subst h
    · exact isSpace_false_of_isDig h1
    · exact isSpace_false_of_isDig h2
  have hp : d1 ≠ '+' := ne_of_isDig_of_not h1 (by decide)
  have hm : d1 ≠ '-' := ne_of_isDig_of_not h1 (by decide)
  have hu : d2 ≠ '_' := ne_of_isDig_of_not h2 (by decide)
  unfold pyInt
  rw [hs]
  simp [hp, hm, pyDigits, h1, pyDigitsAux, hu, h2]

theorem splitOn_mmss {d1 d2 d3 d4 : Char} (h1 : d1 ≠ ':') (h2 : d2 ≠ ':')
    (h3 : d3 ≠ ':') (h4 : d4 ≠ ':') :
    splitOn ':' [d1, d2, ':', d3, d4] = [[d1, d2], [d3, d4]] := by
  simp [splitOn, splitOnAux, h1, h2, h3, h4]

theorem convert_valid {d1 d2 d3 d4 : Char} (h1 : isDig d1 = true) (h2 : isDig d2 = true)
    (h3 : isDig d3 = true) (h4 : isDig d4 = true)
    (hs : digVal d3 * 10 + digVal d4 < 60) :
    convert_timestamp [d1, d2, ':', d3, d4] =
      .ok (((digVal d1 * 10 + digVal d2) * 60 + (digVal d3 * 10 + digVal d4) : ℕ) : ℤ) := by
  have hc : ∀ c, isDig c = true → c ≠ ':' := fun c h => ne_of_isDig_of_not h (by decide)
  have hno : ¬ (60 : ℤ) ≤ ((digVal d3 * 10 + digVal d4 : ℕ) : ℤ) := by
    push_cast; omega
  unfold convert_timestamp
  rw [splitOn_mmss (hc _ h1) (hc _ h2) (hc _ h3) (hc _ h4)]
  simp [pyInt_two_digits h1 h2, pyInt_two_digits h3 h4, hno, if_false]
  omega

/-! ### C2: the convert_timestamp contract -/

/-- C2: `convert_timestamp` returns `minutes*60+seconds` for every input of
exactly two colon-delimited integer fields with seconds < 60, and raises a
`ValueError` exactly when the field count is not 2, either field is
non-numeric, or the seconds field is at least 60. -/
theorem convert_timestamp_spec (t : Str) :
    (∀ f1 f2 m s, splitOn ':' t = [f1, f2] → pyInt f1 = some m → pyInt f2 = some s →
      s < 60 → convert_timestamp t = .ok (m * 60 + s)) ∧
    ((∃ e, convert_timestamp t = .error (.valueError e)) ↔
      ¬ ((splitOn ':' t).length = 2 ∧
         ∃ m s, pyInt ((splitOn ':' t).getD 0 []) = some m ∧
                pyInt ((splitOn ':' t).getD 1 []) = some s ∧ s < 60)) := by
  constructor
  · intro f1 f2 m s hsplit hm hs hlt
    unfold convert_timestamp
    rw [hsplit]
    simp [hm, hs, not_le.mpr hlt]
  · rcases hsp : splitOn ':' t with _ | ⟨f1, _ | ⟨f2, _ | ⟨f3, rest⟩⟩⟩
    · simp [convert_timestamp, hsp]
    · simp [convert_timestamp, hsp]
    · rcases hm : pyInt f1 with _ | m
      · simp [convert_timestamp, hsp, hm]
      · rcases hn : pyInt f2 with _ | s
        · simp [convert_timestamp, hsp, hm, hn]
        · by_cases hlt : (60 : ℤ) ≤ s
          · simp [convert_timestamp, hsp, hm, hn, hlt]
            try omega
          · simp [convert_timestamp, hsp, hm, hn, hlt]
            try exact ⟨m, s, rfl, rfl, by omega⟩
    · simp [convert_timestamp, hsp]

/-- C2 witness: the theorem applied at the concrete input "12:34". -/
theorem convert_timestamp_spec_witness :
    convert_timestamp (s2l "12:34") = .ok (12 * 60 + 34) :=
  (convert_timestamp_spec (s2l "12:34")).1 (s2l "12") (s2l "34") 12 34 rfl rfl rfl
    (by omega)

/-! ### C5: the geometry planner -/

/-- C5: the geometry planner is a deterministic pure function of the four
probed integers; `segment_height = min(height_top, height_bottom) // 2` and
`segment_width` is the truncation of `segment_height * 9 / 8`. -/
theorem planGeometry_spec (width_top height_top width_bottom height_bottom : ℕ) :
    (planGeometry width_top height_top width_bottom height_bottom).2 =
      min height_top height_bottom / 2 ∧
    (planGeometry width_top height_top width_bottom height_bottom).1 =
      ⌊((min height_top height_bottom / 2 : ℕ) : ℚ) * 9 / 8⌋₊ ∧
    (∀ wt' ht' wb' hb', width_top = wt' → height_top = ht' → width_bottom = wb' →
      height_bottom = hb' →
      planGeometry width_top height_top width_bottom height_bottom =
        planGeometry wt' ht' wb' hb') := by
  refine ⟨rfl, ?_, ?_⟩
  · rw [show ((min height_top height_bottom / 2 : ℕ) : ℚ) * 9 =
        (((min height_top height_bottom / 2) * 9 : ℕ) : ℚ) by push_cast; ring,
      show (8 : ℚ) = ((8 : ℕ) : ℚ) by norm_num]
    rw [Nat.floor_div_nat, Nat.floor_natCast]
    rfl
  · intro wt' ht' wb' hb' e1 e2 e3 e4
    subst e1; subst e2; subst e3; subst e4; rfl

/-- C5 witness: the theorem applied at concrete probed dimensions,
discharging the determinism conjunct's equality hypotheses. -/
theorem planGeometry_spec_witness :
    (planGeometry 1920 1080 1280 720).2 = min 1080 720 / 2 ∧
    (planGeometry 1920 1080 1280 720).1 = ⌊((min 1080 720 / 2 : ℕ) : ℚ) * 9 / 8⌋₊ ∧
    planGeometry 1920 1080 1280 720 = planGeometry 1920 1080 1280 720 :=
  ⟨(planGeometry_spec 1920 1080 1280 720).1, (planGeometry_spec 1920 1080 1280 720).2.1,
    (planGeometry_spec 1920 1080 1280 720).2.2 1920 1080 1280 720 rfl rfl rfl rfl⟩

/-! ### C6: behavior when the external tool is absent -/

/-- C6 (code bug evidence): with the external tool absent and an otherwise
fully valid job, `process_videos` returns without error, spawns no process,
and emits nothing — the claim (and the spec) require a descriptive error to
be raised to the caller instead. -/
theorem process_videos_ffmpeg_absent :
    process_videos
      ⟨false, false, (1920, 1080), (1920, 1080), 0, 0, [], fun _ => 0, fun _ => [],
        false, false⟩
      ⟨some (s2l "a.mp4"), some (s2l "b.mp4"), none, some (s2l "out")⟩
      [⟨s2l "00:00", s2l "00:30"⟩] =
    ⟨Log.nil, false, false, .ok ()⟩ := rfl

/-! ### C4: bijectivity of convert_timestamp on valid MM:SS text -/

theorem char_eq_of_toNat_eq {a b : Char} (h : a.toNat = b.toNat) : a = b := by
  apply Char.eq_of_val_eq
  apply UInt32.eq_of_val_eq
  exact Fin.ext h

theorem digitChar_toNat {d : ℕ} (h : d < 10) : (Nat.digitChar d).toNat = 48 + d := by
  interval_cases d <;> rfl

theorem digitChar_isDig {d : ℕ} (h : d < 10) : isDig (Nat.digitChar d) = true := by
  rw [isDig_iff, digitChar_toNat h]; omega

theorem digitChar_digVal {d : ℕ} (h : d < 10) : digVal (Nat.digitChar d) = d := by
  unfold digVal; rw [digitChar_toNat h]; omega

theorem validMMSS_iff {t : Str} : validMMSS t = true ↔
    ∃ d1 d2 d3 d4, t = [d1, d2, ':', d3, d4] ∧ isDig d1 = true ∧ isDig d2 = true ∧
      isDig d3 = true ∧ isDig d4 = true ∧ 10 * digVal d3 + digVal d4 < 60 := by
  rcases t with _ | ⟨d1, _ | ⟨d2, _ | ⟨c, _ | ⟨d3, _ | ⟨d4, _ | ⟨x, rest⟩⟩⟩⟩⟩⟩
  case nil => simp [validMMSS]
  case cons.nil => simp [validMMSS]
  case cons.cons.nil => simp [validMMSS]
  case cons.cons.cons.nil => simp [validMMSS]
  case cons.cons.cons.cons.nil => simp [validMMSS]
  case cons.cons.cons.cons.cons.cons => simp [validMMSS]
  by_cases hc : c = ':'
  · subst hc
    simp only [validMMSS, Bool.and_eq_true, decide_eq_true_eq]
    constructor
    · rintro ⟨⟨⟨⟨⟨h1, h2⟩, -⟩, h3⟩, h4⟩, hlt⟩
      exact ⟨d1, d2, d3, d4, rfl, h1, h2, h3, h4, hlt⟩
    · rintro ⟨e1, e2, e3, e4, heq, h1, h2, h3, h4, hlt⟩
      simp only [List.cons.injEq, and_true] at heq
      obtain ⟨rfl, rfl, -, rfl, rfl⟩ := heq
      exact ⟨⟨⟨⟨⟨h1, h2⟩, trivial⟩, h3⟩, h4⟩, hlt⟩
  · simp [validMMSS, hc]

/-- C4 (amended): on valid `MM:SS` text (`\d\d:\d\d` with seconds < 60),
`convert_timestamp` is a bijection onto the nonnegative integers below
6000 (maximum `99*60+59 = 5999`), and formatting an integer in that range
back to `MM:SS` and reparsing yields the same integer. -/
theorem convert_timestamp_bijection :
    (∀ t, validMMSS t = true → ∃ n : ℕ, n < 6000 ∧ convert_timestamp t = .ok (n : ℤ)) ∧
    (∀ t1 t2 v, validMMSS t1 = true → validMMSS t2 = true →
      convert_timestamp t1 = .ok v → convert_timestamp t2 = .ok v → t1 = t2) ∧
    (∀ n : ℕ, n < 6000 → validMMSS (formatMMSS n) = true ∧
      convert_timestamp (formatMMSS n) = .ok (n : ℤ)) := by
  refine ⟨?_, ?_, ?_⟩
  · intro t ht
    rcases validMMSS_iff.mp ht with ⟨d1, d2, d3, d4, rfl, h1, h2, h3, h4, hlt⟩
    refine ⟨(digVal d1 * 10 + digVal d2) * 60 + (digVal d3 * 10 + digVal d4), ?_, ?_⟩
    · have b1 := digVal_le_of_isDig h1
      have b2 := digVal_le_of_isDig h2
      omega
    · exact convert_valid h1 h2 h3 h4 (by omega)
  · intro t1 t2 v ht1 ht2 hc1 hc2
    rcases validMMSS_iff.mp ht1 with ⟨d1, d2, d3, d4, rfl, h1, h2, h3, h4, hlt⟩
    rcases validMMSS_iff.mp ht2 with ⟨e1, e2, e3, e4, rfl, g1, g2, g3, g4, glt⟩
    rw [convert_valid h1 h2 h3 h4 (by omega)] at hc1
    rw [convert_valid g1 g2 g3 g4 (by omega)] at hc2
    have hval : ((digVal d1 * 10 + digVal d2) * 60 + (digVal d3 * 10 + digVal d4) : ℕ) =
        ((digVal e1 * 10 + digVal e2) * 60 + (digVal e3 * 10 + digVal e4) : ℕ) := by
      have h := hc1.trans hc2.symm
      simp only [Except.ok.injEq] at h
      exact_mod_cast h
    have r1 := isDig_iff.mp h1
    have r2 := isDig_iff.mp h2
    have r3 := isDig_iff.mp h3
    have r4 := isDig_iff.mp h4
    have q1 := isDig_iff.mp g1
    have q2 := isDig_iff.mp g2
    have q3 := isDig_iff.mp g3
    have q4 := isDig_iff.mp g4
    have u1 : digVal d1 = d1.toNat - 48 := rfl
    have u2 : digVal d2 = d2.toNat - 48 := rfl
    have u3 : digVal d3 = d3.toNat - 48 := rfl
    have u4 : digVal d4 = d4.toNat - 48 := rfl
    have w1 : digVal e1 = e1.toNat - 48 := rfl
    have w2 : digVal e2 = e2.toNat - 48 := rfl
    have w3 : digVal e3 = e3.toNat - 48 := rfl
    have w4 : digVal e4 = e4.toNat - 48 := rfl
    have hd1 : d1 = e1 := char_eq_of_toNat_eq (by omega)
    have hd2 : d2 = e2 := char_eq_of_toNat_eq (by omega)
    have hd3 : d3 = e3 := char_eq_of_toNat_eq (by omega)
    have hd4 : d4 = e4 := char_eq_of_toNat_eq (by omega)
    rw [hd1, hd2, hd3, hd4]
  · intro n hn
    have k1 : n / 60 / 10 < 10 := by omega
    have k2 : n / 60 % 10 < 10 := by omega
    have k3 : n % 60 / 10 < 10 := by omega
    have k4 : n % 60 % 10 < 10 := by omega
    constructor
    · rw [validMMSS_iff]
      refine ⟨_, _, _, _, rfl, digitChar_isDig k1, digitChar_isDig k2,
        digitChar_isDig k3, digitChar_isDig k4, ?_⟩
      rw [digitChar_digVal k3, digitChar_digVal k4]
      omega
    · unfold formatMMSS
      rw [convert_valid (digitChar_isDig k1) (digitChar_isDig k2)
        (digitChar_isDig k3) (digitChar_isDig k4)
        (by rw [digitChar_digVal k3, digitChar_digVal k4]; omega)]
      rw [digitChar_digVal k1, digitChar_digVal k2, digitChar_digVal k3,
        digitChar_digVal k4]
      congr 1
      omega

/-- C4 witness: the round-trip conjunct applied at the concrete value 90. -/
theorem convert_timestamp_bijection_witness :
    validMMSS (formatMMSS 90) = true ∧
    convert_timestamp (formatMMSS 90) = .ok (90 : ℤ) :=
  convert_timestamp_bijection.2.2 90 (by omega)

/-- C4 counterexample: "99:59" is valid `MM:SS` text, yet `convert_timestamp`
maps it to 5999, outside the claim's asserted range `[0, 4000)`. -/
theorem convert_timestamp_range_cex :
    validMMSS (s2l "99:59") = true ∧
    convert_timestamp (s2l "99:59") = .ok 5999 ∧ ¬ ((5999 : ℤ) < 4000) :=
  ⟨rfl, rfl, by decide⟩

/-! ### C3: line-level parsing -/

theorem collectSegments_all_blank {ls : List Str} (h : ∀ line ∈ ls, strip line = []) :
    collectSegments ls = .ok [] := by
  induction ls with
  | nil => rfl
  | cons x rest ih =>
    rw [collectSegments]
    simp only [h x (by simp), if_pos rfl]
    exact ih (fun y hy => h y (by simp [hy]))

/-- C3 (amended): a non-empty (after trimming) line fails the whole parse
with the format error naming that line exactly when the fixed-width pattern
`\d\d:\d\d-\d\d:\d\d` fails to match at the START of the line (a line with a
matching prefix is accepted, trailing text ignored — see the counterexample);
empty lines are skipped; an input whose lines are all blank fails with the
"No timestamps provided" error. -/
theorem parse_timestamps_spec :
    (∀ line rest, strip line = [] →
      collectSegments (line :: rest) = collectSegments rest) ∧
    (∀ pre l post, (∀ x ∈ pre, lineOkP x) → strip l ≠ [] → matchTs (strip l) = none →
      collectSegments (pre ++ l :: post) = .error (.valueError (lineMsg (strip l)))) ∧
    (∀ text, (∀ line ∈ splitOn '\n' text, strip line = []) →
      parse_timestamps text = .error (.valueError (s2l "No timestamps provided"))) := by
  refine ⟨?_, ?_, ?_⟩
  · intro line rest h
    rw [collectSegments]
    simp [h]
  · intro pre
    induction pre with
    | nil =>
      intro l post _ hl hm
      simp only [List.nil_append]
      rw [collectSegments]
      simp [hl, hm]
    | cons x pre ih =>
      intro l post hok hl hm
      have hx := hok x (by simp)
      rcases hx with hblank | ⟨st, en, a, b, hmt, ha, hb⟩
      · simp only [List.cons_append]
        rw [collectSegments]
        simp only [hblank, if_pos rfl]
        exact ih l post (fun y hy => hok y (by simp [hy])) hl hm
      · have hne : strip x ≠ [] := by
          intro he; rw [he] at hmt; simp [matchTs] at hmt
        simp only [List.cons_append]
        rw [collectSegments]
        simp only [if_neg hne, hmt, ha, hb,
          ih l post (fun y hy => hok y (by simp [hy])) hl hm]
        rfl
  · intro text hall
    unfold parse_timestamps
    rw [collectSegments_all_blank hall]
    rfl

/-- C3 witness: the failing-line conjunct applied to the input lines
"00:00-00:30" (well-formed) and "bad" (non-matching). -/
theorem parse_timestamps_spec_witness :
    collectSegments ([s2l "00:00-00:30"] ++ s2l "bad" :: []) =
      .error (.valueError (lineMsg (strip (s2l "bad")))) :=
  parse_timestamps_spec.2.1 [s2l "00:00-00:30"] (s2l "bad") []
    (by
      intro x hx
      simp only [List.mem_singleton] at hx
      subst hx
      exact Or.inr ⟨s2l "00:00", s2l "00:30", 0, 30, rfl, rfl, rfl⟩)
    (by decide) rfl

/-- C3 counterexample: the non-empty line "00:00-00:30xx" does not match
`\d\d:\d\d-\d\d:\d\d` in its entirety, yet the parse accepts it (the source
anchors the pattern only at the start of the line), returning the segment
instead of raising the format error. -/
theorem parse_timestamps_prefix_cex :
    parse_timestamps (s2l "00:00-00:30xx") = .ok [⟨s2l "00:00", s2l "00:30"⟩] := rfl

/-! ### C10: extension checks and letter case -/

theorem suffix_unique {v w t : Str} (hv : v <:+ t) (hw : w <:+ t)
    (hl : v.length = w.length) : v = w := by
  rcases List.suffix_or_suffix_of_suffix hv hw with h | h
  · exact h.eq_of_length hl
  · exact (h.eq_of_length hl.symm).symm

theorem endsWith_suffix {s v : Str} (h : endsWith s v = true) : v <:+ s := by
  simpa [endsWith] using h

theorem endsWith_mp4_false {t v : Str} (hv : endsWith t v = true) (hlen : v.length = 4)
    (hne : v ≠ s2l ".mp4") : endsWith t (s2l ".mp4") = false := by
  cases h : endsWith t (s2l ".mp4") with
  | false => rfl
  | true =>
    exact absurd (suffix_unique (endsWith_suffix hv) (endsWith_suffix h) hlen) hne

theorem lowerStr_suffix {a v : Str} (h : v <:+ a) : lowerStr v <:+ lowerStr a := by
  rcases h with ⟨u, rfl⟩
  exact ⟨lowerStr u, by simp [lowerStr]⟩

/-- C10: the primary-video extension check is case-sensitive — a top-video
path ending in any four-character variant of ".mp4" other than the lowercase
one is rejected with the "must be mp4" `ValueError` — while the audio
override's check lowercases the path first, so any letter-case variant of a
recognized audio extension passes it. -/
theorem extension_case_spec :
    (∀ env p segs t v, env.ffmpegPresent = true →
      truthy p.top_video = true → truthy p.bottom_video = true →
      truthy p.output_dir = true → p.top_video = some t →
      endsWith t v = true → v.length = 4 → v ≠ s2l ".mp4" → lowerStr v = s2l ".mp4" →
      (process_videos env p segs).result =
        .error (.valueError (s2l "Input files must be mp4"))) ∧
    (∀ a v, endsWith a v = true → lowerStr v ∈ audioExts →
      audioOk (some a) = true) := by
  constructor
  · intro env p segs t v hff h1 h2 h3 htop hv hlen hne _
    have hmp4 : endsWith t (s2l ".mp4") = false := endsWith_mp4_false hv hlen hne
    rw [htop] at h1
    unfold process_videos
    simp [hff, h1, h2, h3, htop, hmp4]
  · intro a v hav hmem
    simp only [audioOk, List.any_eq_true]
    refine ⟨lowerStr v, hmem, ?_⟩
    simpa [endsWith] using lowerStr_suffix (endsWith_suffix hav)

/-- C10 witness: a job whose top video ends in ".MP4" is rejected, while a
".WaV" audio override passes the audio check. -/
theorem extension_case_spec_witness :
    (process_videos
        ⟨true, false, (1920, 1080), (1920, 1080), 0, 0, [], fun _ => 0, fun _ => [],
          false, false⟩
        ⟨some (s2l "a.MP4"), some (s2l "b.mp4"), none, some (s2l "out")⟩ []).result =
      .error (.valueError (s2l "Input files must be mp4")) ∧
    audioOk (some (s2l "song.WaV")) = true :=
  ⟨extension_case_spec.1 _ _ _ (s2l "a.MP4") (s2l ".MP4") rfl rfl rfl rfl rfl
      (by decide) (by decide) (by decide) (by decide),
    extension_case_spec.2 (s2l "song.WaV") (s2l ".WaV") (by decide) (by decide)⟩

/-! ### C8: unconditional cleanup of the temporary artifact -/

/-- C8: every run that reached the combining stage (observable as the
"Combining videos..." status having been emitted) attempts to delete the
temporary artifact exactly when it exists at cleanup time, and a failing
deletion is swallowed: the run's result is identical whether or not the
removal fails. -/
theorem cleanup_spec (env : Env) (p : Proc) (segs : List TimeSegment)
    (h : s2l "Combining videos..." ∈ (process_videos env p segs).log.status) :
    (process_videos env p segs).cleanupAttempted = env.tempExistsAtCleanup ∧
    ∀ b, (process_videos
        ⟨env.ffmpegPresent, env.hasNvidia, env.probeTop, env.probeBottom,
          env.combineAliveTicks, env.combineExit, env.combineStderr,
          env.segmentExit, env.segmentStderr, env.tempExistsAtCleanup, b⟩
        p segs).result = (process_videos env p segs).result := by
  by_cases h1 : env.ffmpegPresent = true
  · by_cases h2 : (truthy p.top_video && truthy p.bottom_video &&
        truthy p.output_dir) = true
    · by_cases h3 : (endsWith (p.top_video.getD []) (s2l ".mp4") &&
          endsWith (p.bottom_video.getD []) (s2l ".mp4")) = true
      · by_cases h4 : audioOk p.audio_file = true
        · constructor
          · unfold process_videos
            simp only [h1, h2, h3, h4, Bool.not_true, Bool.false_eq_true, if_false]
            split_ifs <;> rfl
          · intro b
            unfold process_videos
            simp only [h1, h2, h3, h4, Bool.not_true, Bool.false_eq_true, if_false]
            split_ifs <;> rfl
        · exfalso
          unfold process_videos at h
          simp [h1, h2, h3, h4, Log.nil] at h
      · exfalso
        unfold process_videos at h
        simp [h1, h2, h3, Log.nil] at h
    · exfalso
      unfold process_videos at h
      simp [h1, h2, Log.nil] at h
  · exfalso
    unfold process_videos at h
    simp [h1, Log.nil] at h

/-- C8 witness: a concrete run that reached combining attempts cleanup, and
its result is unchanged when the removal fails. -/
theorem cleanup_spec_witness :
    (process_videos
        ⟨true, false, (1920, 1080), (1920, 1080), 0, 0, [], fun _ => 0, fun _ => [],
          true, false⟩
        ⟨some (s2l "a.mp4"), some (s2l "b.mp4"), none, some (s2l "out")⟩
        []).cleanupAttempted = true ∧
    (process_videos
        ⟨true, false, (1920, 1080), (1920, 1080), 0, 0, [], fun _ => 0, fun _ => [],
          true, true⟩
        ⟨some (s2l "a.mp4"), some (s2l "b.mp4"), none, some (s2l "out")⟩
        []).result =
      (process_videos
        ⟨true, false, (1920, 1080), (1920, 1080), 0, 0, [], fun _ => 0, fun _ => [],
          true, false⟩
        ⟨some (s2l "a.mp4"), some (s2l "b.mp4"), none, some (s2l "out")⟩
        []).result :=
  ⟨(cleanup_spec _ _ _ (by decide)).1,
    (cleanup_spec
      ⟨true, false, (1920, 1080), (1920, 1080), 0, 0, [], fun _ => 0, fun _ => [],
        true, false⟩
      ⟨some (s2l "a.mp4"), some (s2l "b.mp4"), none, some (s2l "out")⟩
      [] (by decide)).2 true⟩

/-! ### C7: invalid segment duration -/

theorem goodSegB_iff {seg : TimeSegment} : goodSegB seg = true ↔
    ∃ a b, convert_timestamp seg.start = .ok a ∧ convert_timestamp seg.stop = .ok b ∧
      a < b := by
  unfold goodSegB
  rcases h1 : convert_timestamp seg.start with e | a <;>
    rcases h2 : convert_timestamp seg.stop with f | b <;> simp

theorem badSegB_iff {seg : TimeSegment} : badSegB seg = true ↔
    ∃ a b, convert_timestamp seg.start = .ok a ∧ convert_timestamp seg.stop = .ok b ∧
      b ≤ a := by
  unfold badSegB
  rcases h1 : convert_timestamp seg.start with e | a <;>
    rcases h2 : convert_timestamp seg.stop with f | b <;> simp

theorem process_segment_ok {exitf : ℕ → ℤ} {errf : ℕ → Str}
    {encoder preset temp outdir : Str} {seg : TimeSegment} {index total : ℕ} {a b : ℤ}
    (hca : convert_timestamp seg.start = .ok a) (hcb : convert_timestamp seg.stop = .ok b)
    (hab : a < b) (hex : exitf index = 0) :
    process_segment exitf errf encoder preset temp outdir seg index total =
      (⟨segmentRamp index total, [segStatus index total],
        [segmentCommand a (b - a) encoder preset temp
          (slashes (pathJoin outdir (segName seg)))]⟩, .ok ()) := by
  unfold process_segment
  simp only [hca, hcb]
  rw [if_neg (by omega : ¬ (b - a ≤ 0))]
  rw [hex]
  simp

theorem process_segment_bad_duration {exitf : ℕ → ℤ} {errf : ℕ → Str}
    {encoder preset temp outdir : Str} {seg : TimeSegment} {index total : ℕ} {a b : ℤ}
    (hca : convert_timestamp seg.start = .ok a) (hcb : convert_timestamp seg.stop = .ok b)
    (hba : b ≤ a) :
    process_segment exitf errf encoder preset temp outdir seg index total =
      (⟨[], [segStatus index total], []⟩,
        .error (wrapSeg seg (.valueError
          (s2l "Invalid segment duration: " ++ seg.start ++ ['-'] ++ seg.stop)))) := by
  unfold process_segment
  simp only [hca, hcb]
  rw [if_pos (by omega : b - a ≤ 0)]

/-- C7: in the sequential segment loop, the first segment whose end is not
strictly after its start (both endpoints converting, all earlier segments
well-formed and their extractions succeeding) fails the run with the
`InvalidSegmentDuration` message wrapped in the per-segment error naming that
segment's range; no extraction process is spawned for it (hence no output
file is produced for it), and no later segment is attempted (exactly one
process per earlier segment is spawned, and only the failing segment's
status message follows theirs). -/
theorem segment_duration_spec (exitf : ℕ → ℤ) (errf : ℕ → Str)
    (encoder preset temp outdir : Str) (pre post : List TimeSegment)
    (bad : TimeSegment) (index total : ℕ)
    (hexit : ∀ i, exitf i = 0)
    (hpre : ∀ s ∈ pre, goodSegB s = true)
    (hbad : badSegB bad = true) :
    (∃ msg,
      (runSegments exitf errf encoder preset temp outdir
        (pre ++ bad :: post) index total).2 = .error (.runtimeError msg) ∧
      (bad.start ++ '-' :: bad.stop) <:+: msg ∧
      s2l "Invalid segment duration" <:+: msg) ∧
    (runSegments exitf errf encoder preset temp outdir
      (pre ++ bad :: post) index total).1.spawned.length = pre.length ∧
    (runSegments exitf errf encoder preset temp outdir
      (pre ++ bad :: post) index total).1.status.length = pre.length + 1 := by
  obtain ⟨a, b, hca, hcb, hba⟩ := badSegB_iff.mp hbad
  induction pre generalizing index with
  | nil =>
    simp only [List.nil_append]
    rw [runSegments]
    rw [process_segment_bad_duration hca hcb hba]
    refine ⟨⟨_, rfl, ?_, ?_⟩, rfl, rfl⟩
    · exact ⟨s2l "Error processing segment ",
        s2l ": " ++ (s2l "Invalid segment duration: " ++ bad.start ++ ['-'] ++ bad.stop),
        by simp [wrapSeg, VErr.msg]⟩
    · refine ⟨s2l "Error processing segment " ++ bad.start ++ '-' :: bad.stop ++ s2l ": ",
        s2l ": " ++ bad.start ++ '-' :: bad.stop, ?_⟩
      have hsp : (s2l "Invalid segment duration" ++ s2l ": " : Str) =
          s2l "Invalid segment duration: " := rfl
      simp only [wrapSeg, VErr.msg, List.append_assoc, List.cons_append,
        List.singleton_append, ← hsp]
      simp
  | cons x pre ih =>
    obtain ⟨c, d, hxc, hxd, hcd⟩ := goodSegB_iff.mp (hpre x (by simp))
    have hrest := ih (index + 1) (fun s hs => hpre s (by simp [hs]))
    simp only [List.cons_append]
    rw [runSegments]
    rw [process_segment_ok hxc hxd hcd (hexit index)]
    simp only []
    refine ⟨?_, ?_, ?_⟩
    · obtain ⟨msg, hmsg, hi1, hi2⟩ := hrest.1
      exact ⟨msg, by simp [hmsg], hi1, hi2⟩
    · simp [Log.append, hrest.2.1]
    · simp [Log.append, hrest.2.2]

/-- C7 witness: the theorem applied with one well-formed leading segment and
the zero-length segment 00:30-00:30. -/
theorem segment_duration_spec_witness :
    (runSegments (fun _ => 0) (fun _ => []) (s2l "libx264") (s2l "ultrafast")
      (s2l "t.mp4") (s2l "out")
      ([⟨s2l "00:00", s2l "00:30"⟩] ++ ⟨s2l "00:30", s2l "00:30"⟩ :: []) 1 2).1.spawned.length = 1 :=
  (segment_duration_spec (fun _ => 0) (fun _ => []) (s2l "libx264") (s2l "ultrafast")
    (s2l "t.mp4") (s2l "out") [⟨s2l "00:00", s2l "00:30"⟩] []
    ⟨s2l "00:30", s2l "00:30"⟩ 1 2 (fun _ => rfl)
    (by intro s hs; simp only [List.mem_singleton] at hs; subst hs; rfl)
    (by rfl)).2.1

/-! ### C9: the per-segment simulated progress ramp -/

theorem span_diff (index total : ℕ) :
    spanEnd index total - spanStart index total = 70 / (total : ℚ) := by
  unfold spanStart spanEnd
  by_cases h : (total : ℚ) = 0
  · rw [h]; simp
  · field_simp
    ring

theorem span_step_nonneg (index total : ℕ) :
    0 ≤ (spanEnd index total - spanStart index total) / 10 := by
  rw [span_diff]
  positivity

theorem spanStart_le_spanEnd (index total : ℕ) :
    spanStart index total ≤ spanEnd index total := by
  have h := span_step_nonneg index total
  have h70 : (0:ℚ) ≤ 70 / (total : ℚ) := by positivity
  have := span_diff index total
  linarith

theorem spanEnd_eq_spanStart_succ (index total : ℕ) :
    spanEnd index total = spanStart (index + 1) total := by
  unfold spanStart spanEnd
  push_cast
  ring_nf

theorem spanStart_one (total : ℕ) : spanStart 1 total = 30 := by
  unfold spanStart
  norm_num

theorem spanStart_ge_30 {index : ℕ} (total : ℕ) (h : 1 ≤ index) :
    30 ≤ spanStart index total := by
  unfold spanStart
  have h1 : (1:ℚ) ≤ (index : ℚ) := by exact_mod_cast h
  have : (0:ℚ) ≤ ((index : ℚ) - 1) / (total : ℚ) * 70 := by
    apply mul_nonneg
    · apply div_nonneg
      · linarith
      · exact Nat.cast_nonneg total
    · norm_num
  linarith

theorem spanEnd_le_100 {index total : ℕ} (h : index ≤ total) (ht : 1 ≤ total) :
    spanEnd index total ≤ 100 := by
  unfold spanEnd
  have htq : (0:ℚ) < (total : ℚ) := by exact_mod_cast ht
  have hdiv : (index : ℚ) / (total : ℚ) ≤ 1 := by
    rw [div_le_one htq]
    exact_mod_cast h
  nlinarith

theorem spanEnd_self {total : ℕ} (h : 1 ≤ total) : spanEnd total total = 100 := by
  unfold spanEnd
  have htq : (total : ℚ) ≠ 0 := by
    have : (0:ℚ) < (total : ℚ) := by exact_mod_cast h
    linarith
  rw [div_self htq]
  norm_num

theorem segmentRamp_last_eq_start_add_ten (index total : ℕ) :
    spanStart index total +
      10 * ((spanEnd index total - spanStart index total) / 10) =
      spanEnd index total := by
  field_simp

theorem segmentRamp_getElem (index total : ℕ) {j : ℕ} (hj : j ≤ 10) :
    (segmentRamp index total)[j]? = some (spanStart index total +
      (j : ℚ) * ((spanEnd index total - spanStart index total) / 10)) := by
  unfold segmentRamp
  rcases Nat.lt_or_ge j 10 with h | h
  · rw [List.getElem?_append_left (by simpa using h)]
    simp [List.getElem?_map, List.getElem?_range h]
  · have hj10 : j = 10 := by omega
    subst hj10
    rw [List.getElem?_append_right (by simp)]
    simp [segmentRamp_last_eq_start_add_ten]

theorem segmentRamp_length (index total : ℕ) : (segmentRamp index total).length = 11 := by
  simp [segmentRamp]

theorem segmentRamp_getLast (index total : ℕ) :
    (segmentRamp index total).getLast? = some (spanEnd index total) := by
  simp [segmentRamp, List.getLast?_concat]

theorem segmentRamp_head (index total : ℕ) :
    (segmentRamp index total).head? = some (spanStart index total) := by
  unfold segmentRamp
  rw [List.range_succ_eq_map]
  simp

theorem segmentRamp_ne_nil (index total : ℕ) : segmentRamp index total ≠ [] := by
  intro h
  have := segmentRamp_length index total
  rw [h] at this
  simp at this

theorem segmentRamp_mem_bounds {index total : ℕ} (h1 : 1 ≤ index) (h2 : index ≤ total) :
    ∀ x ∈ segmentRamp index total,
      spanStart index total ≤ x ∧ x ≤ spanEnd index total := by
  intro x hx
  have hstep := span_step_nonneg index total
  have h10 := segmentRamp_last_eq_start_add_ten index total
  simp only [segmentRamp, List.mem_append, List.mem_map, List.mem_range,
    List.mem_singleton] at hx
  rcases hx with ⟨j, hj, rfl⟩ | rfl
  · constructor
    · have hjq : (0:ℚ) ≤ (j:ℚ) := Nat.cast_nonneg j
      nlinarith
    · have hjq : (j:ℚ) ≤ 10 := by
        have : j ≤ 10 := by omega
        exact_mod_cast this
      nlinarith
  · exact ⟨spanStart_le_spanEnd index total, le_refl _⟩

theorem segmentRamp_chain (index total : ℕ) :
    (segmentRamp index total).Chain' (· ≤ ·) := by
  have hstep := span_step_nonneg index total
  have h10 := segmentRamp_last_eq_start_add_ten index total
  unfold segmentRamp
  rw [List.chain'_append]
  refine ⟨?_, List.chain'_singleton _, ?_⟩
  · rw [List.chain'_map]
    rw [show (10:ℕ) = 9 + 1 from rfl, List.chain'_range_succ]
    intro m _
    have : (m:ℚ) ≤ ((m+1 : ℕ) : ℚ) := by push_cast; linarith
    nlinarith
  · intro x hx y hy
    have hlast : (List.map (fun (i : ℕ) => spanStart index total +
        (i : ℚ) * ((spanEnd index total - spanStart index total) / 10))
        (List.range 10)).getLast? = some (spanStart index total +
          (9 : ℚ) * ((spanEnd index total - spanStart index total) / 10)) := by
      rw [show (10:ℕ) = 9 + 1 from rfl, List.range_succ]
      rw [List.map_append]
      simp [List.getLast?_concat]
    rw [hlast] at hx
    simp only [Option.mem_def, Option.some.injEq] at hx
    simp only [List.head?_cons, Option.mem_def, Option.some.injEq] at hy
    subst hx; subst hy
    nlinarith

/-- C9: for every successful segment `index` of `total`, the emitted ramp is
the eleven values `spanStart + j*step` for `j = 0..10` (evenly stepped,
`step = (spanEnd - spanStart)/10`), each lying in the segment's span
`[30 + 70*(index-1)/total, 30 + 70*index/total]`, with the span end emitted
last; for the final segment the span end is exactly 100. The last conjunct
ties the ramp to `process_segment` on any successful segment. -/
theorem segment_ramp_spec (index total : ℕ) (h1 : 1 ≤ index) (h2 : index ≤ total) :
    (∀ j : ℕ, j ≤ 10 → (segmentRamp index total)[j]? =
      some (spanStart index total + (j : ℚ) *
        ((spanEnd index total - spanStart index total) / 10))) ∧
    (segmentRamp index total).length = 11 ∧
    (∀ x ∈ segmentRamp index total,
      spanStart index total ≤ x ∧ x ≤ spanEnd index total) ∧
    (segmentRamp index total).getLast? = some (spanEnd index total) ∧
    (index = total → spanEnd index total = 100) ∧
    (∀ (exitf : ℕ → ℤ) (errf : ℕ → Str) (encoder preset temp outdir : Str)
      (seg : TimeSegment) (a b : ℤ),
      convert_timestamp seg.start = .ok a → convert_timestamp seg.stop = .ok b →
      a < b → exitf index = 0 →
      (process_segment exitf errf encoder preset temp outdir seg index total).1.progress =
        segmentRamp index total) := by
  refine ⟨fun j hj => segmentRamp_getElem index total hj,
    segmentRamp_length index total,
    segmentRamp_mem_bounds h1 h2,
    segmentRamp_getLast index total,
    ?_, ?_⟩
  · intro he
    subst he
    exact spanEnd_self h1
  · intro exitf errf encoder preset temp outdir seg a b hca hcb hab hex
    rw [process_segment_ok hca hcb hab hex]

/-- C9 witness: the theorem applied at segment 1 of 2. -/
theorem segment_ramp_spec_witness :
    (segmentRamp 1 2).getLast? = some (spanEnd 1 2) ∧ (segmentRamp 1 2).length = 11 :=
  ⟨(segment_ramp_spec 1 2 (by omega) (by omega)).2.2.2.1,
    (segment_ramp_spec 1 2 (by omega) (by omega)).2.1⟩

/-! ### C1: the full progress stream of a job run -/

theorem combineRamp_chain (k : ℕ) : (combineRamp k).Chain' (· ≤ ·) := by
  unfold combineRamp
  rw [List.chain'_map]
  rcases k with _ | k
  · simp
  · rw [List.chain'_range_succ]
    intro m _
    have : (m : ℚ) ≤ ((m + 1 : ℕ) : ℚ) := by push_cast; linarith
    nlinarith

theorem combineRamp_mem_bounds {k : ℕ} (hk : k ≤ 980) :
    ∀ x ∈ combineRamp k, 0 ≤ x ∧ x ≤ 98 := by
  intro x hx
  simp only [combineRamp, List.mem_map, List.mem_range] at hx
  obtain ⟨j, hj, rfl⟩ := hx
  constructor
  · positivity
  · have : (j : ℚ) + 1 ≤ 980 := by
      have : j + 1 ≤ 980 := by omega
      exact_mod_cast this
    linarith

theorem combineRamp_getLast (k : ℕ) :
    (combineRamp (k + 1)).getLast? = some (((k : ℚ) + 1) * (1 / 10)) := by
  unfold combineRamp
  rw [List.range_succ, List.map_append]
  simp [List.getLast?_concat]

theorem flatMap_range_succ_left (f : ℕ → List ℚ) (n : ℕ) :
    (List.range (n + 1)).flatMap f = f 0 ++ (List.range n).flatMap (fun j => f (j + 1)) := by
  rw [List.range_succ_eq_map, List.flatMap_cons, List.flatMap_map]

theorem runSegments_ok {exitf : ℕ → ℤ} {errf : ℕ → Str} (hex : ∀ i, exitf i = 0)
    (encoder preset temp outdir : Str) :
    ∀ (segs : List TimeSegment) (index total : ℕ), (∀ s ∈ segs, goodSegB s = true) →
      (runSegments exitf errf encoder preset temp outdir segs index total).2 = .ok () ∧
      (runSegments exitf errf encoder preset temp outdir segs index total).1.progress =
        (List.range segs.length).flatMap (fun j => segmentRamp (index + j) total) := by
  intro segs
  induction segs with
  | nil => intro index total _; exact ⟨rfl, rfl⟩
  | cons x rest ih =>
    intro index total hgood
    obtain ⟨a, b, hca, hcb, hab⟩ := goodSegB_iff.mp (hgood x (by simp))
    have hr := ih (index + 1) total (fun s hs => hgood s (by simp [hs]))
    rw [runSegments]
    rw [process_segment_ok hca hcb hab (hex index)]
    simp only []
    rw [List.length_cons, flatMap_range_succ_left]
    have hsh : ∀ j : ℕ, index + (j + 1) = index + 1 + j := fun j => by omega
    have hfun : (fun j => segmentRamp (index + (j + 1)) total) =
        fun j => segmentRamp (index + 1 + j) total :=
      funext (fun j => by rw [hsh j])
    constructor
    · rw [hr.1]
    · simp only [Log.append, hr.2]
      rw [hfun]
      simp only [Nat.add_zero]

theorem ramps_join_spec (total : ℕ) :
    ∀ (cnt index : ℕ), 1 ≤ index → index + cnt ≤ total + 1 →
      (∀ x ∈ (List.range cnt).flatMap (fun j => segmentRamp (index + j) total),
        30 ≤ x ∧ x ≤ 100) ∧
      ((List.range cnt).flatMap (fun j => segmentRamp (index + j) total)).Chain' (· ≤ ·) ∧
      (1 ≤ cnt →
        ((List.range cnt).flatMap (fun j => segmentRamp (index + j) total)).head? =
          some (spanStart index total) ∧
        ((List.range cnt).flatMap (fun j => segmentRamp (index + j) total)).getLast? =
          some (spanEnd (index + cnt - 1) total)) := by
  intro cnt
  induction cnt with
  | zero =>
    intro index _ _
    refine ⟨by simp, by simp, by omega⟩
  | succ n ih =>
    intro index h1 h2
    have hident : (List.range (n + 1)).flatMap (fun j => segmentRamp (index + j) total) =
        segmentRamp index total ++
          (List.range n).flatMap (fun j => segmentRamp (index + 1 + j) total) := by
      rw [flatMap_range_succ_left]
      have hsh : ∀ j : ℕ, index + (j + 1) = index + 1 + j := fun j => by omega
      have hfun : (fun j => segmentRamp (index + (j + 1)) total) =
          fun j => segmentRamp (index + 1 + j) total :=
        funext (fun j => by rw [hsh j])
      rw [hfun]
      simp only [Nat.add_zero]
    have hit : index ≤ total := by omega
    have hto : 1 ≤ total := by omega
    have hrest := ih (index + 1) (by omega) (by omega)
    rw [hident]
    refine ⟨?_, ?_, ?_⟩
    · intro x hx
      rcases List.mem_append.mp hx with hx | hx
      · have hb := segmentRamp_mem_bounds h1 hit x hx
        have hs30 := spanStart_ge_30 total h1
        have he100 := spanEnd_le_100 hit hto
        exact ⟨by linarith [hb.1], by linarith [hb.2]⟩
      · exact hrest.1 x hx
    · rw [List.chain'_append]
      refine ⟨segmentRamp_chain index total, hrest.2.1, ?_⟩
      intro x hx y hy
      rw [segmentRamp_getLast index total] at hx
      simp only [Option.mem_def, Option.some.injEq] at hx
      subst hx
      rcases Nat.eq_zero_or_pos n with hn | hn
      · subst hn
        simp at hy
      · have hh := (hrest.2.2 hn).1
        rw [hh] at hy
        simp only [Option.mem_def, Option.some.injEq] at hy
        subst hy
        rw [spanEnd_eq_spanStart_succ]
    · intro _
      constructor
      · rw [List.head?_append, segmentRamp_head]
        rfl
      · rcases Nat.eq_zero_or_pos n with hn | hn
        · subst hn
          simp only [List.range_zero, List.flatMap_nil, List.append_nil]
          rw [segmentRamp_getLast]
          congr 1
        · rw [List.getLast?_append, (hrest.2.2 hn).2]
          have : index + 1 + n - 1 = index + (n + 1) - 1 := by omega
          rw [this]
          rfl

/-- The main-branch shape of `process_videos` when validation passes and the
combine process exits cleanly. -/
theorem process_videos_combine_ok (env : Env) (p : Proc) (segs : List TimeSegment)
    (hff : env.ffmpegPresent = true)
    (h2 : (truthy p.top_video && truthy p.bottom_video && truthy p.output_dir) = true)
    (h3 : (endsWith (p.top_video.getD []) (s2l ".mp4") &&
      endsWith (p.bottom_video.getD []) (s2l ".mp4")) = true)
    (h4 : audioOk p.audio_file = true)
    (hc : env.combineExit = 0) :
    (process_videos env p segs).log.progress =
      combineRamp (min env.combineAliveTicks 980) ++ 30 ::
        (runSegments env.segmentExit env.segmentStderr (encoderOf env) (presetOf env)
          (slashes (pathJoin (p.output_dir.getD []) (s2l "temp_combined.mp4")))
          (p.output_dir.getD []) segs 1 segs.length).1.progress ∧
    (process_videos env p segs).result =
      (match (runSegments env.segmentExit env.segmentStderr (encoderOf env) (presetOf env)
          (slashes (pathJoin (p.output_dir.getD []) (s2l "temp_combined.mp4")))
          (p.output_dir.getD []) segs 1 segs.length).2 with
        | .ok _ => .ok ()
        | .error e => .error (wrapOuter e)) := by
  unfold process_videos
  simp only [hff, h2, h3, h4, Bool.not_true, Bool.false_eq_true, if_false]
  rw [if_neg (by simp [hc])]
  exact ⟨rfl, rfl⟩

/-- C1 (amended): for a fully successful run (validation passing, combine
exiting cleanly, every segment well-formed with its extraction succeeding,
and at least one segment), every emitted progress value lies in `[0, 100]`
and the final emitted value is exactly 100 (the last segment's span end);
the emitted sequence is non-decreasing provided the combine-monitoring loop
ran at most 300 ticks (its simulated value staying at or below the
post-combine checkpoint 30) — with more ticks the snap back to 30 after
combining breaks monotonicity, see the counterexample. -/
theorem progress_spec (env : Env) (p : Proc) (segs : List TimeSegment)
    (hff : env.ffmpegPresent = true)
    (h2 : (truthy p.top_video && truthy p.bottom_video && truthy p.output_dir) = true)
    (h3 : (endsWith (p.top_video.getD []) (s2l ".mp4") &&
      endsWith (p.bottom_video.getD []) (s2l ".mp4")) = true)
    (h4 : audioOk p.audio_file = true)
    (hc : env.combineExit = 0)
    (hex : ∀ i, env.segmentExit i = 0)
    (hsegs : ∀ s ∈ segs, goodSegB s = true)
    (hne : segs ≠ []) :
    (process_videos env p segs).result = .ok () ∧
    (∀ x ∈ (process_videos env p segs).log.progress, 0 ≤ x ∧ x ≤ 100) ∧
    (process_videos env p segs).log.progress.getLast? = some 100 ∧
    (env.combineAliveTicks ≤ 300 →
      nonDecreasing (process_videos env p segs).log.progress) := by
  obtain ⟨hprog, hres⟩ := process_videos_combine_ok env p segs hff h2 h3 h4 hc
  have hrs := @runSegments_ok env.segmentExit env.segmentStderr hex
    (encoderOf env) (presetOf env)
    (slashes (pathJoin (p.output_dir.getD []) (s2l "temp_combined.mp4")))
    (p.output_dir.getD []) segs 1 segs.length hsegs
  have hlen : 1 ≤ segs.length := List.length_pos.mpr hne
  have hjoin := ramps_join_spec segs.length segs.length 1 (by omega) (by omega)
  rw [hrs.2] at hprog
  obtain ⟨hjh, hjl⟩ := hjoin.2.2 hlen
  have hlast100 : spanEnd (1 + segs.length - 1) segs.length = 100 := by
    have : 1 + segs.length - 1 = segs.length := by omega
    rw [this]
    exact spanEnd_self hlen
  refine ⟨?_, ?_, ?_, ?_⟩
  · rw [hres, hrs.1]
  · rw [hprog]
    intro x hx
    rcases List.mem_append.mp hx with hx | hx
    · have hb := combineRamp_mem_bounds (Nat.min_le_right _ 980) x hx
      exact ⟨hb.1, by linarith [hb.2]⟩
    · rcases List.mem_cons.mp hx with rfl | hx
      · norm_num
      · have hb := hjoin.1 x hx
        exact ⟨by linarith [hb.1], hb.2⟩
  · rw [hprog, List.getLast?_append]
    rcases hJ : (List.range segs.length).flatMap
        (fun j => segmentRamp (1 + j) segs.length) with _ | ⟨y, J'⟩
    · rw [hJ] at hjh
      simp at hjh
    · rw [hJ] at hjl
      rw [List.getLast?_cons_cons, hjl, hlast100]
      rfl
  · intro hticks
    rw [hprog]
    unfold nonDecreasing
    rw [List.chain'_append]
    refine ⟨combineRamp_chain _, ?_, ?_⟩
    · rw [List.chain'_cons']
      refine ⟨?_, hjoin.2.1⟩
      intro y hy
      rw [hjh] at hy
      simp only [Option.mem_def, Option.some.injEq] at hy
      subst hy
      rw [spanStart_one]
    · intro x hx y hy
      simp only [List.head?_cons, Option.mem_def, Option.some.injEq] at hy
      subst hy
      have hmin : min env.combineAliveTicks 980 = env.combineAliveTicks := by omega
      rw [hmin] at hx
      rcases hk : env.combineAliveTicks with _ | k
      · rw [hk] at hx
        simp [combineRamp] at hx
      · rw [hk] at hx
        rw [combineRamp_getLast k] at hx
        simp only [Option.mem_def, Option.some.injEq] at hx
        subst hx
        have hkq : (k : ℚ) + 1 ≤ 300 := by
          have : k + 1 ≤ 300 := by omega
          exact_mod_cast this
        linarith

/-- C1 witness: a run whose combine loop ticked 10 times, with one segment:
the result is a success and the progress stream is non-decreasing. -/
theorem progress_spec_witness :
    (process_videos
      ⟨true, false, (1920, 1080), (1920, 1080), 10, 0, [], fun _ => 0, fun _ => [],
        true, false⟩
      ⟨some (s2l "a.mp4"), some (s2l "b.mp4"), none, some (s2l "out")⟩
      [⟨s2l "00:00", s2l "00:30"⟩]).result = .ok () ∧
    nonDecreasing (process_videos
      ⟨true, false, (1920, 1080), (1920, 1080), 10, 0, [], fun _ => 0, fun _ => [],
        true, false⟩
      ⟨some (s2l "a.mp4"), some (s2l "b.mp4"), none, some (s2l "out")⟩
      [⟨s2l "00:00", s2l "00:30"⟩]).log.progress :=
  ⟨(progress_spec _ _ _ (by rfl) (by decide) (by decide) (by rfl) (by rfl)
      (fun _ => rfl)
      (by intro s hs; simp only [List.mem_singleton] at hs; subst hs; decide)
      (by decide)).1,
    (progress_spec _ _ _ (by rfl) (by decide) (by decide) (by rfl) (by rfl)
      (fun _ => rfl)
      (by intro s hs; simp only [List.mem_singleton] at hs; subst hs; decide)
      (by decide)).2.2.2 (by decide)⟩

/-- C1 counterexample: with the combine process alive for 301 monitoring
ticks, the monitoring loop's last emitted value is 30.1, and the checkpoint
30 emitted right after combining is smaller — so the emitted progress
sequence of this run is not non-decreasing. -/
theorem progress_monotone_cex :
    ¬ nonDecreasing (process_videos
      ⟨true, false, (1920, 1080), (1920, 1080), 301, 0, [], fun _ => 0, fun _ => [],
        true, false⟩
      ⟨some (s2l "a.mp4"), some (s2l "b.mp4"), none, some (s2l "out")⟩
      [⟨s2l "00:00", s2l "00:30"⟩]).log.progress := by
  intro h
  obtain ⟨hprog, -⟩ := process_videos_combine_ok
    ⟨true, false, (1920, 1080), (1920, 1080), 301, 0, [], fun _ => 0, fun _ => [],
      true, false⟩
    ⟨some (s2l "a.mp4"), some (s2l "b.mp4"), none, some (s2l "out")⟩
    [⟨s2l "00:00", s2l "00:30"⟩] rfl (by decide) (by decide) rfl rfl
  unfold nonDecreasing at h
  rw [hprog] at h
  rw [show min 301 980 = 300 + 1 from rfl] at h
  rw [List.chain'_append] at h
  obtain ⟨-, -, hj⟩ := h
  have hx := hj (((300 : ℚ) + 1) * (1 / 10))
    (by rw [combineRamp_getLast 300]; rfl) 30 (by rfl)
  norm_num at hx

end Vidcoder
